import Mathlib

/-!
Verification of the cc-taskboard-server debug token scripts
(src/debug/auth.py, src/debug/board.py, src/debug/reg.py).

The scripts read fields from standard input, assemble a Python dict,
serialize it with `json.dumps`, encode the text as UTF-8 bytes, apply
`base64.b64encode` and print the result.  We embed the scripts shallowly:

* a Python string is a `List Nat` of Unicode code points,
* a byte string is a `List Nat` of values `< 256`,
* a script is a function from its prompted inputs to `Option` of its
  output; `none` models an uncaught exception (non-zero exit, no output).

The standard-library pieces the scripts call (`json.dumps`,
`base64.b64encode`, `bytes(s, 'utf-8')`, `int(...)`, `print` on a bytes
object) are embedded faithfully on the fragment the scripts exercise.
-/

namespace TaskboardDebug

/-- Python strings: sequences of Unicode code points. -/
abbrev PyStr := List Nat

/-- Python byte strings: sequences of byte values. -/
abbrev Bytes := List Nat

/-- Code points of a Lean string literal, used to write concrete inputs. -/
def strLit (s : String) : PyStr := s.toList.map Char.toNat

/-! ## base64 (models Python `base64.b64encode` and the standard decode) -/

/-- Index into the standard 64-symbol base64 alphabet
`A-Z a-z 0-9 + /`, returning the ASCII code. -/
def b64sym (i : Nat) : Nat :=
  if i < 26 then 65 + i
  else if i < 52 then 71 + i
  else if i < 62 then i - 4
  else if i = 62 then 43
  else 47

/-- Inverse of `b64sym`: ASCII code of an alphabet symbol back to its
6-bit value. -/
def b64symDec (c : Nat) : Option Nat :=
  if 65 ≤ c ∧ c ≤ 90 then some (c - 65)
  else if 97 ≤ c ∧ c ≤ 122 then some (c - 71)
  else if 48 ≤ c ∧ c ≤ 57 then some (c + 4)
  else if c = 43 then some 62
  else if c = 47 then some 63
  else none

/-- Models Python `base64.b64encode`: bytes to ASCII codes of the base64
text, `=`-padded (ASCII 61). -/
def b64encode : List Nat → List Nat
  | [] => []
  | [a] => [b64sym (a / 4), b64sym (a % 4 * 16), 61, 61]
  | [a, b] => [b64sym (a / 4), b64sym (a % 4 * 16 + b / 16), b64sym (b % 16 * 4), 61]
  | a :: b :: c :: rest =>
      b64sym (a / 4) :: b64sym (a % 4 * 16 + b / 16) :: b64sym (b % 16 * 4 + c / 64) ::
        b64sym (c % 64) :: b64encode rest

/-- Modelled from the spec: "reverse the binary-to-text transform" — the
standard base64 decode (the repository itself ships no decoder). -/
def b64decode : List Nat → Option (List Nat)
  | [] => some []
  | c0 :: c1 :: c2 :: c3 :: rest =>
      if c3 = 61 then
        match rest with
        | [] =>
          if c2 = 61 then
            match b64symDec c0, b64symDec c1 with
            | some i0, some i1 => some [i0 * 4 + i1 / 16]
            | _, _ => none
          else
            match b64symDec c0, b64symDec c1, b64symDec c2 with
            | some i0, some i1, some i2 => some [i0 * 4 + i1 / 16, i1 % 16 * 16 + i2 / 4]
            | _, _, _ => none
        | _ => none
      else
        match b64symDec c0, b64symDec c1, b64symDec c2, b64symDec c3, b64decode rest with
        | some i0, some i1, some i2, some i3, some bs =>
            some ((i0 * 4 + i1 / 16) :: (i1 % 16 * 16 + i2 / 4) :: (i2 % 4 * 64 + i3) :: bs)
        | _, _, _, _, _ => none
  | _ => none

theorem b64symDec_b64sym : ∀ i, i < 64 → b64symDec (b64sym i) = some i := by decide

theorem b64sym_ne_pad : ∀ i, i < 64 → b64sym i ≠ 61 := by decide

/-- base64 round trip: decoding an encoding recovers the bytes. -/
theorem b64decode_b64encode :
    ∀ bs : List Nat, (∀ x ∈ bs, x < 256) → b64decode (b64encode bs) = some bs := by
  intro bs
  induction bs using b64encode.induct with
  | case1 => intro _; rfl
  | case2 a =>
    intro h
    have ha : a < 256 := h a (by simp)
    simp only [b64encode, b64decode, if_true]
    rw [b64symDec_b64sym _ (by omega), b64symDec_b64sym _ (by omega)]
    simp only [if_true, Option.some.injEq, List.cons.injEq, and_true]
    omega
  | case3 a b =>
    intro h
    have ha : a < 256 := h a (by simp)
    have hb : b < 256 := h b (by simp)
    simp only [b64encode, b64decode, if_true]
    rw [if_neg (b64sym_ne_pad (b % 16 * 4) (by omega))]
    rw [b64symDec_b64sym _ (by omega), b64symDec_b64sym _ (by omega),
      b64symDec_b64sym _ (by omega)]
    simp only [Option.some.injEq, List.cons.injEq, and_true]
    constructor <;> omega
  | case4 a b c rest ih =>
    intro h
    have ha : a < 256 := h a (by simp)
    have hb : b < 256 := h b (by simp)
    have hc : c < 256 := h c (by simp)
    have hrest : ∀ x ∈ rest, x < 256 := fun x hx => h x (by simp [hx])
    simp only [b64encode, b64decode]
    rw [if_neg (b64sym_ne_pad _ (by omega))]
    rw [b64symDec_b64sym _ (by omega), b64symDec_b64sym _ (by omega),
      b64symDec_b64sym _ (by omega), b64symDec_b64sym _ (by omega)]
    rw [ih hrest]
    simp only [Option.some.injEq, List.cons.injEq, and_true]
    refine ⟨by omega, by omega, by omega⟩

/-! ## JSON serialization (models Python `json.dumps` with its defaults:
`ensure_ascii=True`, separators `", "` and `": "`, insertion-ordered dict) -/

/-- A JSON value of the shapes the scripts produce: a string or an integer. -/
inductive JVal where
  | str (s : PyStr)
  | int (n : Int)
deriving DecidableEq

/-- A record: the insertion-ordered field mapping of a Python dict. -/
abbrev Record := List (PyStr × JVal)

/-- Lowercase hex digit (ASCII code) of `d % 16` (callers pass values
already reduced mod 16). -/
def hexDig (d : Nat) : Nat := if d % 16 < 10 then 48 + d % 16 else 87 + d % 16

/-- Four lowercase hex digits of a 16-bit value, as in `\uXXXX` escapes. -/
def hex4 (n : Nat) : List Nat :=
  [hexDig (n / 4096 % 16), hexDig (n / 256 % 16), hexDig (n / 16 % 16), hexDig (n % 16)]

/-- `json.dumps` escaping of one code point under `ensure_ascii=True`:
`"` and `\` and the short control escapes are backslashed, other control
and all non-ASCII code points become `\uXXXX` (a surrogate pair above
the BMP), printable ASCII is kept verbatim. -/
def escChar (c : Nat) : List Nat :=
  if c = 34 then [92, 34]
  else if c = 92 then [92, 92]
  else if c = 8 then [92, 98]
  else if c = 9 then [92, 116]
  else if c = 10 then [92, 110]
  else if c = 12 then [92, 102]
  else if c = 13 then [92, 114]
  else if c < 32 then 92 :: 117 :: hex4 c
  else if c ≤ 126 then [c]
  else if c < 65536 then 92 :: 117 :: hex4 c
  else 92 :: 117 :: hex4 (55296 + (c - 65536) / 1024) ++ (92 :: 117 :: hex4 (56320 + (c - 65536) % 1024))

/-- Body of a serialized JSON string (content between the quotes). -/
def escBody (s : PyStr) : List Nat := (s.map escChar).flatten

/-- A serialized JSON string, quotes included. -/
def escString (s : PyStr) : List Nat := 34 :: escBody s ++ [34]

/-- Decimal digits (ASCII) of a natural number, fuel-indexed. -/
def natDecFuel : Nat → Nat → List Nat
  | 0, _ => []
  | fuel + 1, n => if n < 10 then [48 + n] else natDecFuel fuel (n / 10) ++ [48 + n % 10]

/-- Decimal digits (ASCII) of a natural number, as Python prints it. -/
def natDec (n : Nat) : List Nat := natDecFuel (n + 1) n

/-- Python's textual form of an int: `-` followed by digits when negative. -/
def intDec (i : Int) : List Nat :=
  if i < 0 then 45 :: natDec (-i).toNat else natDec i.toNat

/-- Serialization of one JSON value. -/
def dumpVal : JVal → List Nat
  | .str s => escString s
  | .int n => intDec n

/-- Serialization of the `"key": value` entries, joined by `", "`. -/
def dumpEntries : Record → List Nat
  | [] => []
  | [(k, v)] => escString k ++ (58 :: 32 :: dumpVal v)
  | (k, v) :: rest => escString k ++ (58 :: 32 :: dumpVal v) ++ (44 :: 32 :: dumpEntries rest)

/-- Models `json.dumps` on the dicts the scripts build. -/
def jsonDumps (r : Record) : List Nat := 123 :: dumpEntries r ++ [125]

/-! ## UTF-8 encoding (models `bytes(s, 'utf-8')`) -/

/-- A code point `bytes(s, 'utf-8')` accepts: below 0x110000 and not a
surrogate. -/
def okChar (c : Nat) : Bool := decide (c < 1114112 ∧ ¬(55296 ≤ c ∧ c < 57344))

/-- UTF-8 bytes of one acceptable code point. -/
def utf8Char (c : Nat) : List Nat :=
  if c < 128 then [c]
  else if c < 2048 then [192 + c / 64, 128 + c % 64]
  else if c < 65536 then [224 + c / 4096, 128 + c / 64 % 64, 128 + c % 64]
  else [240 + c / 262144, 128 + c / 4096 % 64, 128 + c / 64 % 64, 128 + c % 64]

/-- Models `bytes(s, 'utf-8')`: fails (raises) on surrogates and
out-of-range code points, otherwise concatenates the UTF-8 bytes. -/
def pyBytesUtf8 (s : PyStr) : Option Bytes :=
  if s.all okChar then some ((s.map utf8Char).flatten) else none

/-- A Python string every code point of which `bytes(s, 'utf-8')`
accepts (what a UTF-8 terminal can deliver to `input()`). -/
def ValidStr (s : PyStr) : Prop := ∀ c ∈ s, c < 1114112 ∧ ¬(55296 ≤ c ∧ c < 57344)

instance (s : PyStr) : Decidable (ValidStr s) := by
  unfold ValidStr; infer_instance

/-! ## `print` on a bytes object

In Python 3, `print(b)` for `b : bytes` writes `repr(b)` — the token
wrapped in `b'...'` — followed by a newline. -/

/-- repr of one byte inside a bytes literal quoted by `q`. -/
def pyByteRepr (q c : Nat) : List Nat :=
  if c = 92 then [92, 92]
  else if c = q then [92, q]
  else if c = 9 then [92, 116]
  else if c = 10 then [92, 110]
  else if c = 13 then [92, 114]
  else if c < 32 ∨ 127 ≤ c then [92, 120, hexDig (c / 16), hexDig (c % 16)]
  else [c]

/-- Models `repr` of a Python bytes object: `b` plus a quoted literal;
the quote is `'` unless the bytes contain `'` but no `"`. -/
def pyBytesRepr (bs : Bytes) : List Nat :=
  let q := if 39 ∈ bs ∧ ¬(34 ∈ bs) then 34 else 39
  98 :: q :: (bs.map (pyByteRepr q)).flatten ++ [q]

/-- The line `print(token)` writes for the bytes `token` (newline aside). -/
def printedLine (t : Option Bytes) : Option (List Nat) := t.map pyBytesRepr

/-! ## `int(...)` (models Python `int` applied to a string)

Python strips surrounding whitespace, accepts an optional `+`/`-` sign
and decimal digits with single underscores strictly between digits.
(The exotic additions — Unicode digits and non-ASCII whitespace — are
outside what these claims exercise and are not modelled.) -/

/-- Whitespace stripped by `int()` (the ASCII fragment). -/
def pyWs (c : Nat) : Bool := c == 32 || c == 9 || c == 10 || c == 13 || c == 11 || c == 12

/-- ASCII decimal digit test. -/
def isDigit (c : Nat) : Bool := 48 ≤ c && c ≤ 57

/-- Accumulating digit scan allowing single underscores between digits. -/
def digitsTail (acc : Nat) : List Nat → Option Nat
  | [] => some acc
  | 95 :: d :: rest => if isDigit d then digitsTail (acc * 10 + (d - 48)) rest else none
  | d :: rest => if isDigit d then digitsTail (acc * 10 + (d - 48)) rest else none

/-- The unsigned digit string of an int literal: nonempty, starts with a
digit, single underscores only between digits. -/
def natOfDigits : List Nat → Option Nat
  | [] => none
  | d :: rest => if isDigit d then digitsTail (d - 48) rest else none

/-- Strip `pyWs` from both ends. -/
def pyStrip (s : PyStr) : PyStr :=
  ((s.dropWhile pyWs).reverse.dropWhile pyWs).reverse

/-- Models `int(s)` for a string `s`; `none` is the uncaught `ValueError`. -/
def pyInt (s : PyStr) : Option Int :=
  match pyStrip s with
  | 43 :: ds => (natOfDigits ds).map (fun n => (n : Int))
  | 45 :: ds => (natOfDigits ds).map (fun n => -(n : Int))
  | ds => (natOfDigits ds).map (fun n => (n : Int))

/-! ## The three scripts

Each is a function from its prompted inputs to the bytes object bound to
`token`; `none` models an uncaught exception. -/

/-- The dict `task` built by the `else` branch of auth.py. -/
def authRecord (login pass_ : PyStr) : Record :=
  [(strLit "login", .str login), (strLit "pass", .str pass_)]

/-- auth.py: first input nonempty → encode it directly (passthrough);
empty → prompt for login and password and encode the JSON record. -/
def authToken (inp1 login pass_ : PyStr) : Option Bytes :=
  if inp1 ≠ [] then (pyBytesUtf8 inp1).map b64encode
  else (pyBytesUtf8 (jsonDumps (authRecord login pass_))).map b64encode

/-- The dict `task` built by board.py from the parsed `board_id`. -/
def boardRecord (n : Int) : Record := [(strLit "board_id", .int n)]

/-- board.py: parse the input as an int, build the record, encode. -/
def boardToken (inp : PyStr) : Option Bytes :=
  (pyInt inp).bind fun n => (pyBytesUtf8 (jsonDumps (boardRecord n))).map b64encode

/-- The dict `task` built by reg.py. -/
def regRecord (login pass_ cc_key : PyStr) : Record :=
  [(strLit "login", .str login), (strLit "pass", .str pass_), (strLit "cc_key", .str cc_key)]

/-- reg.py: three prompted fields, JSON record, encode. -/
def regToken (login pass_ cc_key : PyStr) : Option Bytes :=
  (pyBytesUtf8 (jsonDumps (regRecord login pass_ cc_key))).map b64encode

/-! ## JSON parsing

Modelled from the spec: "parse the textual serialization" — a JSON
parser (as `json.loads`) restricted to the record forms of §3: one
object whose values are strings or integers.  Surrogate pairs in
`\uXXXX` escapes are recombined, as Python's scanner does. -/

/-- Value of one hex digit, upper or lower case. -/
def hexDigVal (c : Nat) : Option Nat :=
  if 48 ≤ c ∧ c ≤ 57 then some (c - 48)
  else if 97 ≤ c ∧ c ≤ 102 then some (c - 87)
  else if 65 ≤ c ∧ c ≤ 70 then some (c - 55)
  else none

/-- Value of a 4-hex-digit group, as in `\uXXXX`. -/
def hexVal4 (a b c d : Nat) : Option Nat :=
  match hexDigVal a, hexDigVal b, hexDigVal c, hexDigVal d with
  | some x, some y, some z, some w => some (x * 4096 + y * 256 + z * 16 + w)
  | _, _, _, _ => none

/-- The simple backslash escapes of JSON strings (`\u` handled apart). -/
def unescSimple (e : Nat) : Option Nat :=
  if e = 34 then some 34
  else if e = 92 then some 92
  else if e = 47 then some 47
  else if e = 98 then some 8
  else if e = 102 then some 12
  else if e = 110 then some 10
  else if e = 114 then some 13
  else if e = 116 then some 9
  else none

/-- Scan the body of a JSON string up to the closing quote, returning the
decoded code points and the rest of the input.  A `\uXXXX` high surrogate
immediately followed by a `\uXXXX` low surrogate is recombined into one
supplementary code point.  The fuel bounds the number of decoded
characters; one unit is spent per produced code point. -/
def parseChars : Nat → List Nat → Option (PyStr × List Nat)
  | 0, _ => none
  | _ + 1, 34 :: rest => some ([], rest)
  | f + 1, 92 :: 117 :: a :: b :: c :: d :: rest =>
    (match hexVal4 a b c d with
     | none => none
     | some u =>
       if 55296 ≤ u ∧ u < 56320 then
         match rest with
         | 92 :: 117 :: a2 :: b2 :: c2 :: d2 :: rest2 =>
           (match hexVal4 a2 b2 c2 d2 with
            | some u2 =>
              if 56320 ≤ u2 ∧ u2 < 57344 then
                match parseChars f rest2 with
                | some (cs, rem) => some ((65536 + (u - 55296) * 1024 + (u2 - 56320)) :: cs, rem)
                | none => none
              else
                match parseChars f rest with
                | some (cs, rem) => some (u :: cs, rem)
                | none => none
            | none =>
              match parseChars f rest with
              | some (cs, rem) => some (u :: cs, rem)
              | none => none)
         | _ =>
           match parseChars f rest with
           | some (cs, rem) => some (u :: cs, rem)
           | none => none
       else
         match parseChars f rest with
         | some (cs, rem) => some (u :: cs, rem)
         | none => none)
  | f + 1, 92 :: e :: rest =>
    (match unescSimple e with
     | some c =>
       match parseChars f rest with
       | some (cs, rem) => some (c :: cs, rem)
       | none => none
     | none => none)
  | f + 1, c :: rest =>
    if 32 ≤ c ∧ c ≠ 34 ∧ c ≠ 92 then
      match parseChars f rest with
      | some (cs, rem) => some (c :: cs, rem)
      | none => none
    else none
  | _, [] => none

/-- Parse a quoted JSON string; the fuel passed to the scanner is the
input length plus one, always sufficient. -/
def parseJStr : List Nat → Option (PyStr × List Nat)
  | 34 :: rest => parseChars (rest.length + 1) rest
  | _ => none

/-- Consume a maximal run of decimal digits into an accumulator. -/
def parseDigitsAcc (acc : Nat) : List Nat → Nat × List Nat
  | c :: rest => if isDigit c then parseDigitsAcc (acc * 10 + (c - 48)) rest else (acc, c :: rest)
  | [] => (acc, [])

/-- Parse a nonempty run of decimal digits. -/
def parseNatTok : List Nat → Option (Nat × List Nat)
  | c :: rest => if isDigit c then some (parseDigitsAcc (c - 48) rest) else none
  | [] => none

/-- Parse a JSON integer: optional `-`, then digits. -/
def parseIntTok : List Nat → Option (Int × List Nat)
  | 45 :: rest => (parseNatTok rest).map (fun p => (-(p.1 : Int), p.2))
  | l => (parseNatTok l).map (fun p => ((p.1 : Int), p.2))

/-- Parse a JSON value of the shapes the records use. -/
def parseValue (l : List Nat) : Option (JVal × List Nat) :=
  match l with
  | 34 :: _ => (parseJStr l).map (fun p => (JVal.str p.1, p.2))
  | 45 :: _ => (parseIntTok l).map (fun p => (JVal.int p.1, p.2))
  | c :: _ => if isDigit c then (parseIntTok l).map (fun p => (JVal.int p.1, p.2)) else none
  | [] => none

/-- Skip JSON insignificant whitespace. -/
def skipWs (l : List Nat) : List Nat :=
  l.dropWhile (fun c => c == 32 || c == 9 || c == 10 || c == 13)

/-- Parse the `"key": value` entries of an object up to and including the
closing `}`; the fuel bounds the number of entries. -/
def parseEntries : Nat → List Nat → Option (Record × List Nat)
  | 0, _ => none
  | f + 1, l =>
    match parseJStr l with
    | none => none
    | some (k, r1) =>
      match skipWs r1 with
      | 58 :: r2 =>
        (match parseValue (skipWs r2) with
         | none => none
         | some (v, r3) =>
           match skipWs r3 with
           | 44 :: r4 =>
             (match parseEntries f (skipWs r4) with
              | some (es, rem) => some ((k, v) :: es, rem)
              | none => none)
           | 125 :: r4 => some ([(k, v)], r4)
           | _ => none)
      | _ => none

/-- Modelled from the spec: parse the textual serialization of a record —
a JSON object whose values are strings or integers, returned in document
order.  Succeeds only when the whole input is one such object. -/
def jsonLoads (l : List Nat) : Option Record :=
  match skipWs l with
  | 123 :: r =>
    (match skipWs r with
     | 125 :: r2 => if skipWs r2 = [] then some [] else none
     | r1 =>
       match parseEntries (r1.length + 1) r1 with
       | some (es, rem) => if skipWs rem = [] then some es else none
       | none => none)
  | _ => none

/-- Modelled from the spec: decode a token — reverse the base64 transform
and parse the resulting (ASCII) serialization as a record. -/
def decodeRecord (t : Option Bytes) : Option Record :=
  t.bind fun tok => (b64decode tok).bind jsonLoads

/-! ## String round trip: parsing an escaped string recovers it -/

theorem pc_quote (f : Nat) (tail : List Nat) : parseChars (f+1) (34 :: tail) = some ([], tail) := rfl

theorem pc_u (f a b c d : Nat) (rest : List Nat) :
    parseChars (f+1) (92 :: 117 :: a :: b :: c :: d :: rest) =
    (match hexVal4 a b c d with
     | none => none
     | some u =>
       if 55296 ≤ u ∧ u < 56320 then
         match rest with
         | 92 :: 117 :: a2 :: b2 :: c2 :: d2 :: rest2 =>
           (match hexVal4 a2 b2 c2 d2 with
            | some u2 =>
              if 56320 ≤ u2 ∧ u2 < 57344 then
                match parseChars f rest2 with
                | some (cs, rem) => some ((65536 + (u - 55296) * 1024 + (u2 - 56320)) :: cs, rem)
                | none => none
              else
                match parseChars f rest with
                | some (cs, rem) => some (u :: cs, rem)
                | none => none
            | none =>
              match parseChars f rest with
              | some (cs, rem) => some (u :: cs, rem)
              | none => none)
         | _ =>
           match parseChars f rest with
           | some (cs, rem) => some (u :: cs, rem)
           | none => none
       else
         match parseChars f rest with
         | some (cs, rem) => some (u :: cs, rem)
         | none => none) := rfl

theorem pc_esc (f e c0 : Nat) (rest : List Nat) (hu : unescSimple e = some c0) :
    parseChars (f+1) (92 :: e :: rest) =
    (match parseChars f rest with
     | some (cs, rem) => some (c0 :: cs, rem)
     | none => none) := by
  unfold unescSimple at hu
  split_ifs at hu
  all_goals (try (injection hu with hh))
  all_goals subst_eqs
  all_goals rfl

theorem pc_lit (f c : Nat) (rest : List Nat) (h1 : 32 ≤ c) (h2 : c ≠ 34) (h3 : c ≠ 92) :
    parseChars (f+1) (c :: rest) =
    (match parseChars f rest with
     | some (cs, rem) => some (c :: cs, rem)
     | none => none) := by
  rw [parseChars.eq_def]
  split <;> simp_all

theorem hexVal4_hexDigs (n : Nat) (h : n < 65536) :
    hexVal4 (hexDig (n / 4096 % 16)) (hexDig (n / 256 % 16)) (hexDig (n / 16 % 16))
      (hexDig (n % 16)) = some n := by
  have hd : ∀ d, d < 16 → hexDigVal (hexDig d) = some d := by decide
  unfold hexVal4
  rw [hd _ (by omega), hd _ (by omega), hd _ (by omega), hd _ (by omega)]
  dsimp only
  congr 1
  omega

theorem pc_uesc (f a b c d u : Nat) (rest : List Nat) (h1 : hexVal4 a b c d = some u)
    (hns : ¬(55296 ≤ u ∧ u < 56320)) :
    parseChars (f+1) (92 :: 117 :: a :: b :: c :: d :: rest) =
    (match parseChars f rest with
     | some (cs, rem) => some (u :: cs, rem)
     | none => none) := by
  rw [pc_u, h1]
  try dsimp only
  rw [if_neg hns]

theorem pc_pair (f a b c d a2 b2 c2 d2 u u2 : Nat) (rest2 : List Nat)
    (h1 : hexVal4 a b c d = some u) (hs1 : 55296 ≤ u) (hs2 : u < 56320)
    (h2 : hexVal4 a2 b2 c2 d2 = some u2) (hs3 : 56320 ≤ u2) (hs4 : u2 < 57344) :
    parseChars (f+1) (92 :: 117 :: a :: b :: c :: d :: 92 :: 117 :: a2 :: b2 :: c2 :: d2 :: rest2) =
    (match parseChars f rest2 with
     | some (cs, rem) => some ((65536 + (u - 55296) * 1024 + (u2 - 56320)) :: cs, rem)
     | none => none) := by
  rw [pc_u, h1]
  try dsimp only
  rw [if_pos ⟨hs1, hs2⟩]
  try dsimp only
  rw [h2]
  try dsimp only
  rw [if_pos ⟨hs3, hs4⟩]

theorem escChar_len_pos (c : Nat) : 1 ≤ (escChar c).length := by
  unfold escChar
  repeat' split
  all_goals simp [hex4]

theorem escBody_len (s : PyStr) : s.length ≤ (escBody s).length := by
  induction s with
  | nil => simp [escBody]
  | cons c s ih =>
    have h1 := escChar_len_pos c
    simp only [escBody, List.map_cons, List.flatten_cons, List.length_append, List.length_cons]
    have : s.length ≤ ((s.map escChar).flatten).length := ih
    omega

/-- Scanning the escaped body of a valid string followed by the closing
quote recovers the string, given enough fuel. -/
theorem parseChars_escBody :
    ∀ (s : PyStr) (fuel : Nat) (tail : List Nat), ValidStr s → s.length < fuel →
      parseChars fuel (escBody s ++ 34 :: tail) = some (s, tail) := by
  intro s
  induction s with
  | nil =>
    intro fuel tail _ hf
    obtain ⟨f, rfl⟩ : ∃ f, fuel = f + 1 := ⟨fuel - 1, by omega⟩
    exact pc_quote f tail
  | cons c s ih =>
    intro fuel tail hv hf
    obtain ⟨f, rfl⟩ : ∃ f, fuel = f + 1 := ⟨fuel - 1, by omega⟩
    have hvc : c < 1114112 ∧ ¬(55296 ≤ c ∧ c < 57344) := hv c (by simp)
    have hvs : ValidStr s := fun x hx => hv x (by simp [hx])
    have hlen : s.length < f := by simp at hf; omega
    have ihs := ih f tail hvs hlen
    have hbody : escBody (c :: s) = escChar c ++ escBody s := rfl
    rw [hbody]
    by_cases hsimple : c = 34 ∨ c = 92 ∨ c = 8 ∨ c = 9 ∨ c = 10 ∨ c = 12 ∨ c = 13
    · have he : ∃ e, escChar c = [92, e] ∧ unescSimple e = some c := by
        rcases hsimple with h | h | h | h | h | h | h <;> subst h
        · exact ⟨34, rfl, rfl⟩
        · exact ⟨92, rfl, rfl⟩
        · exact ⟨98, rfl, rfl⟩
        · exact ⟨116, rfl, rfl⟩
        · exact ⟨110, rfl, rfl⟩
        · exact ⟨102, rfl, rfl⟩
        · exact ⟨114, rfl, rfl⟩
      obtain ⟨e, he, hu⟩ := he
      rw [he]
      show parseChars (f + 1) (92 :: e :: (escBody s ++ 34 :: tail)) = some (c :: s, tail)
      rw [pc_esc f e c _ hu, ihs]
    · push_neg at hsimple
      obtain ⟨h34, h92, h8, h9, h10, h12, h13⟩ := hsimple
      by_cases hctl : c < 32
      · have hc : escChar c = 92 :: 117 :: hex4 c := by
          unfold escChar
          rw [if_neg h34, if_neg h92, if_neg h8, if_neg h9, if_neg h10, if_neg h12,
            if_neg h13, if_pos hctl]
        rw [hc]
        show parseChars (f + 1) (92 :: 117 :: hexDig (c / 4096 % 16) :: hexDig (c / 256 % 16) ::
          hexDig (c / 16 % 16) :: hexDig (c % 16) :: (escBody s ++ 34 :: tail)) = some (c :: s, tail)
        rw [pc_uesc f _ _ _ _ c _ (hexVal4_hexDigs c (by omega)) (by omega), ihs]
      · by_cases hprint : c ≤ 126
        · have hc : escChar c = [c] := by
            unfold escChar
            rw [if_neg h34, if_neg h92, if_neg h8, if_neg h9, if_neg h10, if_neg h12,
              if_neg h13, if_neg hctl, if_pos hprint]
          rw [hc]
          show parseChars (f + 1) (c :: (escBody s ++ 34 :: tail)) = some (c :: s, tail)
          rw [pc_lit f c _ (by omega) h34 h92, ihs]
        · by_cases hbmp : c < 65536
          · have hc : escChar c = 92 :: 117 :: hex4 c := by
              unfold escChar
              rw [if_neg h34, if_neg h92, if_neg h8, if_neg h9, if_neg h10, if_neg h12,
                if_neg h13, if_neg hctl, if_neg hprint, if_pos hbmp]
            rw [hc]
            show parseChars (f + 1) (92 :: 117 :: hexDig (c / 4096 % 16) :: hexDig (c / 256 % 16) ::
              hexDig (c / 16 % 16) :: hexDig (c % 16) :: (escBody s ++ 34 :: tail)) = some (c :: s, tail)
            rw [pc_uesc f _ _ _ _ c _ (hexVal4_hexDigs c (by omega)) (by omega), ihs]
          · have hc : escChar c =
                92 :: 117 :: hex4 (55296 + (c - 65536) / 1024) ++
                  (92 :: 117 :: hex4 (56320 + (c - 65536) % 1024)) := by
              unfold escChar
              rw [if_neg h34, if_neg h92, if_neg h8, if_neg h9, if_neg h10, if_neg h12,
                if_neg h13, if_neg hctl, if_neg hprint, if_neg hbmp]
            rw [hc]
            show parseChars (f + 1) (92 :: 117 ::
                hexDig ((55296 + (c - 65536) / 1024) / 4096 % 16) ::
                hexDig ((55296 + (c - 65536) / 1024) / 256 % 16) ::
                hexDig ((55296 + (c - 65536) / 1024) / 16 % 16) ::
                hexDig ((55296 + (c - 65536) / 1024) % 16) ::
                (92 :: 117 ::
                  hexDig ((56320 + (c - 65536) % 1024) / 4096 % 16) ::
                  hexDig ((56320 + (c - 65536) % 1024) / 256 % 16) ::
                  hexDig ((56320 + (c - 65536) % 1024) / 16 % 16) ::
                  hexDig ((56320 + (c - 65536) % 1024) % 16) ::
                  (escBody s ++ 34 :: tail))) = some (c :: s, tail)
            rw [pc_pair f _ _ _ _ _ _ _ _ (55296 + (c - 65536) / 1024)
              (56320 + (c - 65536) % 1024) _
              (hexVal4_hexDigs (55296 + (c - 65536) / 1024) (by omega)) (by omega) (by omega)
              (hexVal4_hexDigs (56320 + (c - 65536) % 1024) (by omega)) (by omega) (by omega),
              ihs]
            try dsimp only
            simp only [Option.some.injEq, Prod.mk.injEq, List.cons.injEq, and_true]
            omega

/-! ## Number round trip -/

/-- The input does not continue with a digit (so a digit scan stops). -/
def headNotDigit : List Nat → Prop
  | [] => True
  | c :: _ => isDigit c = false

theorem parseJStr_escString (s : PyStr) (tail : List Nat) (hv : ValidStr s) :
    parseJStr (escString s ++ tail) = some (s, tail) := by
  have h : escString s ++ tail = 34 :: (escBody s ++ 34 :: tail) := by
    simp [escString, List.cons_append, List.append_assoc]
  rw [h]
  show parseChars ((escBody s ++ 34 :: tail).length + 1) (escBody s ++ 34 :: tail) = some (s, tail)
  apply parseChars_escBody s _ tail hv
  have := escBody_len s
  simp only [List.length_append, List.length_cons]
  omega

theorem natDecFuel_spec :
    ∀ (fuel n : Nat), n < fuel →
      natDecFuel fuel n ≠ [] ∧ (∀ d ∈ natDecFuel fuel n, isDigit d = true) ∧
        List.foldl (fun a d => a * 10 + (d - 48)) 0 (natDecFuel fuel n) = n := by
  intro fuel
  induction fuel with
  | zero => intro n h; omega
  | succ f ih =>
    intro n h
    by_cases h10 : n < 10
    · refine ⟨by simp [natDecFuel, h10], ?_, ?_⟩
      · intro d hd
        simp [natDecFuel, h10] at hd
        simp [isDigit, hd]
        omega
      · simp [natDecFuel, h10]
    · have hrec := ih (n / 10) (by omega)
      have hform : natDecFuel (f + 1) n = natDecFuel f (n / 10) ++ [48 + n % 10] := by
        simp [natDecFuel, h10]
      refine ⟨by simp [hform], ?_, ?_⟩
      · intro d hd
        rw [hform] at hd
        rcases List.mem_append.mp hd with h1 | h1
        · exact hrec.2.1 d h1
        · simp at h1
          simp [isDigit, h1]
          omega
      · rw [hform, List.foldl_append, hrec.2.2]
        simp
        omega

theorem natDec_spec (n : Nat) :
    natDec n ≠ [] ∧ (∀ d ∈ natDec n, isDigit d = true) ∧
      List.foldl (fun a d => a * 10 + (d - 48)) 0 (natDec n) = n :=
  natDecFuel_spec (n + 1) n (by omega)

theorem parseDigitsAcc_spec :
    ∀ (ds : List Nat) (acc : Nat) (tail : List Nat), (∀ d ∈ ds, isDigit d = true) →
      headNotDigit tail →
      parseDigitsAcc acc (ds ++ tail) = (List.foldl (fun a d => a * 10 + (d - 48)) acc ds, tail) := by
  intro ds
  induction ds with
  | nil =>
    intro acc tail _ ht
    cases tail with
    | nil => rfl
    | cons c t =>
      have hc : isDigit c = false := ht
      simp [parseDigitsAcc, hc]
  | cons d ds ih =>
    intro acc tail hds ht
    have hd : isDigit d = true := hds d (by simp)
    simp only [List.cons_append, parseDigitsAcc, hd, if_true, List.foldl_cons]
    exact ih _ tail (fun x hx => hds x (by simp [hx])) ht

theorem parseNatTok_natDec (n : Nat) (tail : List Nat) (ht : headNotDigit tail) :
    parseNatTok (natDec n ++ tail) = some (n, tail) := by
  obtain ⟨hne, hdig, hval⟩ := natDec_spec n
  obtain ⟨d, ds, hshape⟩ : ∃ d ds, natDec n = d :: ds := by
    cases h : natDec n with
    | nil => exact absurd h hne
    | cons d ds => exact ⟨d, ds, rfl⟩
  rw [hshape] at hdig hval ⊢
  have hd : isDigit d = true := hdig d (by simp)
  simp only [List.cons_append, parseNatTok, hd, if_true]
  rw [parseDigitsAcc_spec ds (d - 48) tail (fun x hx => hdig x (by simp [hx])) ht]
  have hval2 : List.foldl (fun a d => a * 10 + (d - 48)) (d - 48) ds = n := by
    simpa using hval
  rw [hval2]

theorem parseIntTok_nonneg (c : Nat) (rest : List Nat) (hc : c ≠ 45) :
    parseIntTok (c :: rest) = (parseNatTok (c :: rest)).map (fun p => ((p.1 : Int), p.2)) := by
  rw [parseIntTok.eq_def]
  split <;> simp_all

theorem isDigit_range (c : Nat) (h : isDigit c = true) : 48 ≤ c ∧ c ≤ 57 := by
  simp [isDigit] at h
  omega

theorem parseIntTok_intDec (i : Int) (tail : List Nat) (ht : headNotDigit tail) :
    parseIntTok (intDec i ++ tail) = some (i, tail) := by
  by_cases hneg : i < 0
  · rw [show intDec i = 45 :: natDec (-i).toNat from by simp [intDec, hneg]]
    show (parseNatTok (natDec (-i).toNat ++ tail)).map (fun p => (-(p.1 : Int), p.2)) = some (i, tail)
    rw [parseNatTok_natDec _ tail ht]
    simp only [Option.map, Option.some.injEq, Prod.mk.injEq, and_true]
    omega
  · rw [show intDec i = natDec i.toNat from by simp [intDec, hneg]]
    obtain ⟨hne, hdig, _⟩ := natDec_spec i.toNat
    obtain ⟨d, ds, hshape⟩ : ∃ d ds, natDec i.toNat = d :: ds := by
      cases h : natDec i.toNat with
      | nil => exact absurd h hne
      | cons d ds => exact ⟨d, ds, rfl⟩
    have hd : isDigit d = true := by rw [hshape] at hdig; exact hdig d (by simp)
    have hd45 : d ≠ 45 := by have := isDigit_range d hd; omega
    rw [hshape, List.cons_append, parseIntTok_nonneg d _ hd45, ← List.cons_append, ← hshape]
    rw [parseNatTok_natDec _ tail ht]
    simp only [Option.map, Option.some.injEq, Prod.mk.injEq, and_true]
    omega

/-! ## Object round trip -/

/-- The input does not continue with JSON whitespace (so `skipWs` is the
identity on it). -/
def nwsHead : List Nat → Prop
  | [] => True
  | c :: _ => (c == 32 || c == 9 || c == 10 || c == 13) = false

theorem skipWs_nws (l : List Nat) (h : nwsHead l) : skipWs l = l := by
  cases l with
  | nil => rfl
  | cons c t =>
    have hc : (c == 32 || c == 9 || c == 10 || c == 13) = false := h
    simp [skipWs, List.dropWhile_cons, hc]

theorem skipWs_32 (l : List Nat) : skipWs (32 :: l) = skipWs l := by
  simp [skipWs, List.dropWhile_cons]

/-- A record whose keys and string values are valid Python strings. -/
def ValidVal : JVal → Prop
  | .str s => ValidStr s
  | .int _ => True

def ValidRec (r : Record) : Prop := ∀ p ∈ r, ValidStr p.1 ∧ ValidVal p.2

theorem parseValue_str (s : PyStr) (tail : List Nat) (hv : ValidStr s) :
    parseValue (escString s ++ tail) = some (.str s, tail) := by
  have h : escString s ++ tail = 34 :: (escBody s ++ 34 :: tail) := by
    simp [escString, List.cons_append, List.append_assoc]
  have h2 := parseJStr_escString s tail hv
  rw [h] at h2 ⊢
  show (parseJStr (34 :: (escBody s ++ 34 :: tail))).map (fun p => (JVal.str p.1, p.2)) =
    some (.str s, tail)
  rw [h2]
  rfl

theorem parseValue_digit (c : Nat) (rest : List Nat) (hc : isDigit c = true) :
    parseValue (c :: rest) = (parseIntTok (c :: rest)).map (fun p => (JVal.int p.1, p.2)) := by
  have h34 : c ≠ 34 := by have := isDigit_range c hc; omega
  have h45 : c ≠ 45 := by have := isDigit_range c hc; omega
  rw [parseValue.eq_def]
  split <;> simp_all

theorem parseValue_intDec (i : Int) (tail : List Nat) (ht : headNotDigit tail) :
    parseValue (intDec i ++ tail) = some (.int i, tail) := by
  have hval := parseIntTok_intDec i tail ht
  by_cases hneg : i < 0
  · have hshape : intDec i = 45 :: natDec (-i).toNat := by simp [intDec, hneg]
    rw [hshape] at hval ⊢
    show (parseIntTok (45 :: (natDec (-i).toNat ++ tail))).map (fun p => (JVal.int p.1, p.2)) =
      some (.int i, tail)
    rw [show (45 : Nat) :: (natDec (-i).toNat ++ tail) =
      (45 :: natDec (-i).toNat) ++ tail from rfl, hval]
    rfl
  · have hshape : intDec i = natDec i.toNat := by simp [intDec, hneg]
    rw [hshape] at hval ⊢
    obtain ⟨hne, hdig, _⟩ := natDec_spec i.toNat
    obtain ⟨d, ds, hds⟩ : ∃ d ds, natDec i.toNat = d :: ds := by
      cases h : natDec i.toNat with
      | nil => exact absurd h hne
      | cons d ds => exact ⟨d, ds, rfl⟩
    have hd : isDigit d = true := by rw [hds] at hdig; exact hdig d (by simp)
    rw [hds] at hval ⊢
    rw [List.cons_append, parseValue_digit d _ hd, ← List.cons_append, hval]
    rfl

theorem dumpVal_head_nws (v : JVal) (x : List Nat) : nwsHead (dumpVal v ++ x) := by
  cases v with
  | str s => exact rfl
  | int i =>
    show nwsHead (intDec i ++ x)
    unfold intDec
    split_ifs with h
    · exact rfl
    · obtain ⟨hne, hdig, _⟩ := natDec_spec (-i).toNat
      obtain ⟨hne2, hdig2, _⟩ := natDec_spec i.toNat
      cases hd : natDec i.toNat with
      | nil => exact absurd hd hne2
      | cons d ds =>
        have := isDigit_range d (by rw [hd] at hdig2; exact hdig2 d (by simp))
        show ((d == 32 || d == 9 || d == 10 || d == 13) = false)
        simp only [Bool.or_eq_false_iff, beq_eq_false_iff_ne, ne_eq]
        omega

theorem dumpEntries_head (p : PyStr × JVal) (r : Record) :
    ∃ t, dumpEntries (p :: r) = 34 :: t := by
  obtain ⟨k, v⟩ := p
  cases r with
  | nil => exact ⟨escBody k ++ [34] ++ (58 :: 32 :: dumpVal v), by simp [dumpEntries, escString]⟩
  | cons q r =>
    exact ⟨escBody k ++ [34] ++ (58 :: 32 :: dumpVal v) ++ (44 :: 32 :: dumpEntries (q :: r)),
      by simp [dumpEntries, escString]⟩

theorem parseEntries_last (f : Nat) (l rest1 : List Nat) (k : PyStr) (v : JVal) (tail : List Nat)
    (h1 : parseJStr l = some (k, 58 :: 32 :: rest1))
    (hnw : nwsHead rest1)
    (h2 : parseValue rest1 = some (v, 125 :: tail)) :
    parseEntries (f + 1) l = some ([(k, v)], tail) := by
  show (match parseJStr l with
    | none => none
    | some (k, r1) =>
      match skipWs r1 with
      | 58 :: r2 =>
        (match parseValue (skipWs r2) with
         | none => none
         | some (v, r3) =>
           match skipWs r3 with
           | 44 :: r4 =>
             (match parseEntries f (skipWs r4) with
              | some (es, rem) => some ((k, v) :: es, rem)
              | none => none)
           | 125 :: r4 => some ([(k, v)], r4)
           | _ => none)
      | _ => none) = some ([(k, v)], tail)
  rw [h1]
  show (match skipWs (58 :: 32 :: rest1) with
    | 58 :: r2 =>
      (match parseValue (skipWs r2) with
       | none => none
       | some (v, r3) =>
         match skipWs r3 with
         | 44 :: r4 =>
           (match parseEntries f (skipWs r4) with
            | some (es, rem) => some ((k, v) :: es, rem)
            | none => none)
         | 125 :: r4 => some ([(k, v)], r4)
         | _ => none)
    | _ => none) = some ([(k, v)], tail)
  rw [show skipWs (58 :: 32 :: rest1) = 58 :: 32 :: rest1 from rfl]
  show (match parseValue (skipWs (32 :: rest1)) with
    | none => none
    | some (v, r3) =>
      match skipWs r3 with
      | 44 :: r4 =>
        (match parseEntries f (skipWs r4) with
         | some (es, rem) => some ((k, v) :: es, rem)
         | none => none)
      | 125 :: r4 => some ([(k, v)], r4)
      | _ => none) = some ([(k, v)], tail)
  rw [skipWs_32, skipWs_nws rest1 hnw, h2]
  show (match skipWs (125 :: tail) with
    | 44 :: r4 =>
      (match parseEntries f (skipWs r4) with
       | some (es, rem) => some ((k, v) :: es, rem)
       | none => none)
    | 125 :: r4 => some ([(k, v)], r4)
    | _ => none) = some ([(k, v)], tail)
  rw [show skipWs (125 :: tail) = 125 :: tail from rfl]

theorem parseEntries_cons (f : Nat) (l rest1 y : List Nat) (k : PyStr) (v : JVal)
    (es : Record) (rem : List Nat)
    (h1 : parseJStr l = some (k, 58 :: 32 :: rest1))
    (hnw : nwsHead rest1)
    (h2 : parseValue rest1 = some (v, 44 :: 32 :: y))
    (hnwY : nwsHead y)
    (h3 : parseEntries f y = some (es, rem)) :
    parseEntries (f + 1) l = some ((k, v) :: es, rem) := by
  show (match parseJStr l with
    | none => none
    | some (k, r1) =>
      match skipWs r1 with
      | 58 :: r2 =>
        (match parseValue (skipWs r2) with
         | none => none
         | some (v, r3) =>
           match skipWs r3 with
           | 44 :: r4 =>
             (match parseEntries f (skipWs r4) with
              | some (es, rem) => some ((k, v) :: es, rem)
              | none => none)
           | 125 :: r4 => some ([(k, v)], r4)
           | _ => none)
      | _ => none) = some ((k, v) :: es, rem)
  rw [h1]
  show (match skipWs (58 :: 32 :: rest1) with
    | 58 :: r2 =>
      (match parseValue (skipWs r2) with
       | none => none
       | some (v, r3) =>
         match skipWs r3 with
         | 44 :: r4 =>
           (match parseEntries f (skipWs r4) with
            | some (es, rem) => some ((k, v) :: es, rem)
            | none => none)
         | 125 :: r4 => some ([(k, v)], r4)
         | _ => none)
    | _ => none) = some ((k, v) :: es, rem)
  rw [show skipWs (58 :: 32 :: rest1) = 58 :: 32 :: rest1 from rfl]
  show (match parseValue (skipWs (32 :: rest1)) with
    | none => none
    | some (v, r3) =>
      match skipWs r3 with
      | 44 :: r4 =>
        (match parseEntries f (skipWs r4) with
         | some (es, rem) => some ((k, v) :: es, rem)
         | none => none)
      | 125 :: r4 => some ([(k, v)], r4)
      | _ => none) = some ((k, v) :: es, rem)
  rw [skipWs_32, skipWs_nws rest1 hnw, h2]
  show (match skipWs (44 :: 32 :: y) with
    | 44 :: r4 =>
      (match parseEntries f (skipWs r4) with
       | some (es, rem) => some ((k, v) :: es, rem)
       | none => none)
    | 125 :: r4 => some ([(k, v)], r4)
    | _ => none) = some ((k, v) :: es, rem)
  rw [show skipWs (44 :: 32 :: y) = 44 :: 32 :: y from rfl]
  show (match parseEntries f (skipWs (32 :: y)) with
    | some (es, rem) => some ((k, v) :: es, rem)
    | none => none) = some ((k, v) :: es, rem)
  rw [skipWs_32, skipWs_nws y hnwY, h3]

theorem parseValue_dumpVal (v : JVal) (c : Nat) (tail : List Nat) (hv : ValidVal v)
    (hc : isDigit c = false) :
    parseValue (dumpVal v ++ c :: tail) = some (v, c :: tail) := by
  cases v with
  | str s => exact parseValue_str s (c :: tail) hv
  | int i => exact parseValue_intDec i (c :: tail) hc

theorem parseEntries_dumpEntries :
    ∀ (r : Record) (fuel : Nat) (tail : List Nat), ValidRec r → r ≠ [] → r.length < fuel →
      parseEntries fuel (dumpEntries r ++ 125 :: tail) = some (r, tail) := by
  intro r
  induction r with
  | nil => intro fuel tail _ hne _; exact absurd rfl hne
  | cons p rest ih =>
    intro fuel tail hv _ hf
    obtain ⟨f, rfl⟩ : ∃ f, fuel = f + 1 := ⟨fuel - 1, by omega⟩
    obtain ⟨k, v⟩ := p
    have hvk : ValidStr k := (hv (k, v) (by simp)).1
    have hvv : ValidVal v := (hv (k, v) (by simp)).2
    cases rest with
    | nil =>
      have hsh : dumpEntries [(k, v)] ++ 125 :: tail =
          escString k ++ (58 :: 32 :: (dumpVal v ++ 125 :: tail)) := by
        simp [dumpEntries, List.append_assoc]
      rw [hsh]
      exact parseEntries_last f _ _ k v tail
        (parseJStr_escString k _ hvk)
        (dumpVal_head_nws v _)
        (parseValue_dumpVal v 125 tail hvv (by decide))
    | cons q rest2 =>
      have hsh : dumpEntries ((k, v) :: q :: rest2) ++ 125 :: tail =
          escString k ++ (58 :: 32 :: (dumpVal v ++ 44 :: 32 ::
            (dumpEntries (q :: rest2) ++ 125 :: tail))) := by
        simp [dumpEntries, List.append_assoc]
      rw [hsh]
      have hrecval : ValidRec (q :: rest2) := fun x hx => hv x (by simp [hx])
      obtain ⟨t, ht⟩ := dumpEntries_head q rest2
      have hnwY : nwsHead (dumpEntries (q :: rest2) ++ 125 :: tail) := by
        rw [ht]
        exact rfl
      exact parseEntries_cons f _ _ _ k v (q :: rest2) tail
        (parseJStr_escString k _ hvk)
        (dumpVal_head_nws v _)
        (parseValue_dumpVal v 44 (32 :: (dumpEntries (q :: rest2) ++ 125 :: tail)) hvv (by decide))
        hnwY
        (ih f tail hrecval (by simp) (by simp only [List.length_cons] at hf ⊢; omega))

theorem escString_len (k : PyStr) : 1 ≤ (escString k).length := by
  simp [escString]

theorem dumpEntries_len : ∀ r : Record, r.length ≤ (dumpEntries r).length := by
  intro r
  induction r using dumpEntries.induct with
  | case1 => simp [dumpEntries]
  | case2 k v =>
    have := escString_len k
    simp only [dumpEntries, List.length_append, List.length_cons, List.length_nil,
      List.length_singleton]
    omega
  | case3 k v q rest2 ih =>
    have := escString_len k
    simp only [dumpEntries, List.length_append, List.length_cons] at ih ⊢
    omega

/-- Parsing the serialization of a valid nonempty record recovers it,
fields, typed values and order alike. -/
theorem jsonLoads_jsonDumps (r : Record) (hv : ValidRec r) (hne : r ≠ []) :
    jsonLoads (jsonDumps r) = some r := by
  obtain ⟨p, rest, rfl⟩ : ∃ p rest, r = p :: rest := by
    cases r with
    | nil => exact absurd rfl hne
    | cons p rest => exact ⟨p, rest, rfl⟩
  obtain ⟨t, ht⟩ := dumpEntries_head p rest
  show (match skipWs (dumpEntries (p :: rest) ++ [125]) with
       | 125 :: r2 => if skipWs r2 = [] then some [] else none
       | r1 =>
         match parseEntries (r1.length + 1) r1 with
         | some (es, rem) => if skipWs rem = [] then some es else none
         | none => none) = some (p :: rest)
  rw [skipWs_nws _ (by rw [ht]; exact rfl)]
  split
  · rename_i r2 heq
    rw [ht] at heq
    simp at heq
  · have hlen := dumpEntries_len (p :: rest)
    have hf : (p :: rest).length < (dumpEntries (p :: rest) ++ [125]).length + 1 := by
      simp only [List.length_append, List.length_cons, List.length_nil] at hlen ⊢
      omega
    rw [parseEntries_dumpEntries (p :: rest) _ [] hv (by simp) hf]
    rfl

/-! ## The serialized text is plain ASCII, so UTF-8 is the identity on it -/

theorem hexDig_le (d : Nat) : hexDig d ≤ 126 := by
  unfold hexDig
  split <;> omega

theorem escChar_le (c : Nat) : ∀ x ∈ escChar c, x ≤ 126 := by
  intro x hx
  unfold escChar at hx
  repeat' split at hx
  all_goals simp only [hex4, List.mem_cons, List.mem_append, List.mem_singleton,
    List.not_mem_nil, or_false] at hx
  · rcases hx with h | h <;> rw [h] <;> omega
  · rcases hx with h | h <;> rw [h] <;> omega
  · rcases hx with h | h <;> rw [h] <;> omega
  · rcases hx with h | h <;> rw [h] <;> omega
  · rcases hx with h | h <;> rw [h] <;> omega
  · rcases hx with h | h <;> rw [h] <;> omega
  · rcases hx with h | h <;> rw [h] <;> omega
  · rcases hx with h | h | h | h | h | h <;> rw [h] <;> first | omega | exact hexDig_le _
  · rw [hx]; omega
  · rcases hx with h | h | h | h | h | h <;> rw [h] <;> first | omega | exact hexDig_le _
  · rcases hx with (h | h | h | h | h | h) | h | h | h | h | h | h <;> rw [h] <;>
      first | omega | exact hexDig_le _

theorem escBody_le (s : PyStr) : ∀ x ∈ escBody s, x ≤ 126 := by
  intro x hx
  simp only [escBody, List.mem_flatten, List.mem_map] at hx
  obtain ⟨l, ⟨c, _, rfl⟩, hxl⟩ := hx
  exact escChar_le c x hxl

theorem escString_le (s : PyStr) : ∀ x ∈ escString s, x ≤ 126 := by
  intro x hx
  simp only [escString, List.mem_cons, List.mem_append, List.mem_singleton,
    List.not_mem_nil, or_false] at hx
  rcases hx with (rfl | hx) | rfl
  · omega
  · exact escBody_le s x hx
  · omega

theorem natDec_le (n : Nat) : ∀ x ∈ natDec n, x ≤ 126 := by
  intro x hx
  have := isDigit_range x ((natDec_spec n).2.1 x hx)
  omega

theorem intDec_le (i : Int) : ∀ x ∈ intDec i, x ≤ 126 := by
  intro x hx
  unfold intDec at hx
  split_ifs at hx
  · rcases List.mem_cons.mp hx with rfl | hx
    · omega
    · exact natDec_le _ x hx
  · exact natDec_le _ x hx

theorem dumpVal_le (v : JVal) : ∀ x ∈ dumpVal v, x ≤ 126 := by
  cases v with
  | str s => exact escString_le s
  | int i => exact intDec_le i

theorem dumpEntries_le : ∀ (r : Record), ∀ x ∈ dumpEntries r, x ≤ 126 := by
  intro r
  induction r using dumpEntries.induct with
  | case1 => simp [dumpEntries]
  | case2 k v =>
    intro x hx
    simp only [dumpEntries, List.mem_append, List.mem_cons] at hx
    rcases hx with hx | rfl | rfl | hx
    · exact escString_le k x hx
    · omega
    · omega
    · exact dumpVal_le v x hx
  | case3 k v q rest2 ih =>
    intro x hx
    simp only [dumpEntries, List.mem_append, List.mem_cons] at hx
    rcases hx with (hx | rfl | rfl | hx) | rfl | rfl | hx
    · exact escString_le k x hx
    · omega
    · omega
    · exact dumpVal_le v x hx
    · omega
    · omega
    · exact ih x hx

theorem jsonDumps_le (r : Record) : ∀ x ∈ jsonDumps r, x ≤ 126 := by
  intro x hx
  simp only [jsonDumps, List.mem_cons, List.mem_append, List.mem_singleton,
    List.not_mem_nil, or_false] at hx
  rcases hx with (rfl | hx) | rfl
  · omega
  · exact dumpEntries_le r x hx
  · omega

/-- `bytes(s, 'utf-8')` on pure ASCII text is the identity byte-for-byte. -/
theorem pyBytesUtf8_ascii (l : List Nat) (h : ∀ x ∈ l, x ≤ 126) : pyBytesUtf8 l = some l := by
  unfold pyBytesUtf8
  rw [if_pos]
  · congr 1
    induction l with
    | nil => rfl
    | cons c t ih =>
      have hc : c < 128 := by have := h c (by simp); omega
      simp only [List.map_cons, List.flatten_cons]
      rw [show utf8Char c = [c] from by unfold utf8Char; rw [if_pos hc]]
      rw [ih (fun x hx => h x (by simp [hx]))]
      rfl
  · rw [List.all_eq_true]
    intro c hc
    have := h c hc
    simp only [okChar, decide_eq_true_eq]
    omega

/-- The UTF-8 bytes of an encodable string are bytes. -/
theorem pyBytesUtf8_bytes (s : PyStr) (bs : Bytes) (h : pyBytesUtf8 s = some bs) :
    ∀ x ∈ bs, x < 256 := by
  unfold pyBytesUtf8 at h
  split_ifs at h with hall
  · obtain rfl : (s.map utf8Char).flatten = bs := by injection h
    intro x hx
    simp only [List.mem_flatten, List.mem_map] at hx
    obtain ⟨l, ⟨c, hcs, rfl⟩, hxl⟩ := hx
    have hc : okChar c = true := by
      rw [List.all_eq_true] at hall
      exact hall c hcs
    simp only [okChar, decide_eq_true_eq] at hc
    unfold utf8Char at hxl
    split_ifs at hxl
    all_goals simp only [List.mem_cons, List.mem_singleton, List.not_mem_nil, or_false] at hxl
    · rw [hxl]; omega
    · rcases hxl with h | h <;> rw [h] <;> omega
    · rcases hxl with h | h | h <;> rw [h] <;> omega
    · rcases hxl with h | h | h | h <;> rw [h] <;> omega

/-- `ValidStr` is exactly the success condition of `bytes(s, 'utf-8')`. -/
theorem pyBytesUtf8_valid (s : PyStr) (hv : ValidStr s) :
    pyBytesUtf8 s = some ((s.map utf8Char).flatten) := by
  unfold pyBytesUtf8
  rw [if_pos]
  rw [List.all_eq_true]
  intro c hc
  have := hv c hc
  simp only [okChar, decide_eq_true_eq]
  omega

/-! ## Script-level helpers -/

/-- Decoding the token of a valid nonempty record yields the record back. -/
theorem token_decode (r : Record) (hv : ValidRec r) (hne : r ≠ []) :
    (pyBytesUtf8 (jsonDumps r)).map b64encode = some (b64encode (jsonDumps r)) ∧
    decodeRecord ((pyBytesUtf8 (jsonDumps r)).map b64encode) = some r := by
  have hasc := jsonDumps_le r
  have h1 : pyBytesUtf8 (jsonDumps r) = some (jsonDumps r) := pyBytesUtf8_ascii _ hasc
  constructor
  · rw [h1]
    rfl
  · rw [h1]
    show (b64decode (b64encode (jsonDumps r))).bind jsonLoads = some r
    rw [b64decode_b64encode _ (fun x hx => by have := hasc x hx; omega)]
    show jsonLoads (jsonDumps r) = some r
    exact jsonLoads_jsonDumps r hv hne

theorem boardToken_eq (inp : PyStr) (n : Int) (h : pyInt inp = some n) :
    boardToken inp = (pyBytesUtf8 (jsonDumps (boardRecord n))).map b64encode := by
  unfold boardToken
  rw [h]
  rfl

theorem b64encode_ne_nil (a : Nat) (rest : List Nat) : b64encode (a :: rest) ≠ [] := by
  cases rest with
  | nil => simp [b64encode]
  | cons b rest2 =>
    cases rest2 with
    | nil => simp [b64encode]
    | cons c rest3 => simp [b64encode]

theorem validRec_authRecord (l p : PyStr) (hl : ValidStr l) (hp : ValidStr p) :
    ValidRec (authRecord l p) := by
  intro q hq
  simp only [authRecord, List.mem_cons, List.not_mem_nil, or_false] at hq
  rcases hq with rfl | rfl
  · exact ⟨show ValidStr (strLit "login") by decide, hl⟩
  · exact ⟨show ValidStr (strLit "pass") by decide, hp⟩

theorem validRec_boardRecord (n : Int) : ValidRec (boardRecord n) := by
  intro q hq
  simp only [boardRecord, List.mem_cons, List.not_mem_nil, or_false] at hq
  subst hq
  exact ⟨show ValidStr (strLit "board_id") by decide, trivial⟩

theorem validRec_regRecord (l p k : PyStr) (hl : ValidStr l) (hp : ValidStr p)
    (hk : ValidStr k) : ValidRec (regRecord l p k) := by
  intro q hq
  simp only [regRecord, List.mem_cons, List.not_mem_nil, or_false] at hq
  rcases hq with rfl | rfl | rfl
  · exact ⟨show ValidStr (strLit "login") by decide, hl⟩
  · exact ⟨show ValidStr (strLit "pass") by decide, hp⟩
  · exact ⟨show ValidStr (strLit "cc_key") by decide, hk⟩

/-! ## Spec-side definitions for the pipeline claim (C2)

These two definitions follow the words of spec §6: build the canonical
textual serialization (fixed field order, string values quoted, integers
unquoted, the standard structured-text separators), interpret it as
UTF-8 bytes and apply the 64-symbol binary-to-text transform. -/

/-- Modelled from the spec: the canonical serialization of the
board-selector record, written out literally. -/
def specTextBoard (n : Int) : List Nat :=
  [123] ++ escString (strLit "board_id") ++ [58, 32] ++ intDec n ++ [125]

/-- Modelled from the spec: the canonical serialization of the login
record, written out literally. -/
def specTextAuthLogin (l p : PyStr) : List Nat :=
  [123] ++ escString (strLit "login") ++ [58, 32] ++ escString l ++ [44, 32] ++
    escString (strLit "pass") ++ [58, 32] ++ escString p ++ [125]

/-- Modelled from the spec: the canonical serialization of the extended
registration record, written out literally. -/
def specTextReg (l p k : PyStr) : List Nat :=
  [123] ++ escString (strLit "login") ++ [58, 32] ++ escString l ++ [44, 32] ++
    escString (strLit "pass") ++ [58, 32] ++ escString p ++ [44, 32] ++
    escString (strLit "cc_key") ++ [58, 32] ++ escString k ++ [125]

/-- Modelled from the spec: the token pipeline — canonical text, UTF-8
bytes, base64. -/
def specPipeline (text : List Nat) : Option Bytes := (pyBytesUtf8 text).map b64encode

theorem jsonDumps_authRecord (l p : PyStr) :
    jsonDumps (authRecord l p) = specTextAuthLogin l p := by
  simp [jsonDumps, authRecord, dumpEntries, dumpVal, specTextAuthLogin, List.append_assoc]

theorem jsonDumps_boardRecord (n : Int) :
    jsonDumps (boardRecord n) = specTextBoard n := by
  simp [jsonDumps, boardRecord, dumpEntries, dumpVal, specTextBoard, List.append_assoc]

theorem jsonDumps_regRecord (l p k : PyStr) :
    jsonDumps (regRecord l p k) = specTextReg l p k := by
  simp [jsonDumps, regRecord, dumpEntries, dumpVal, specTextReg, List.append_assoc]

/-! ## `int()` accepts signed, whitespace-padded decimal literals -/

/-- Numeric value of a digit string (most significant first). -/
def digitsVal (ds : List Nat) : Nat := ds.foldl (fun a d => a * 10 + (d - 48)) 0

theorem digitsTail_cons (acc d : Nat) (rest : List Nat) (hd : isDigit d = true) :
    digitsTail acc (d :: rest) = digitsTail (acc * 10 + (d - 48)) rest := by
  have := isDigit_range d hd
  rw [digitsTail.eq_def]
  split <;> simp_all

theorem digitsTail_all (rest : List Nat) : ∀ acc, (∀ d ∈ rest, isDigit d = true) →
    digitsTail acc rest = some (List.foldl (fun a d => a * 10 + (d - 48)) acc rest) := by
  induction rest with
  | nil => intro acc _; rfl
  | cons d rest ih =>
    intro acc hall
    rw [digitsTail_cons acc d rest (hall d (by simp)), List.foldl_cons]
    exact ih _ (fun x hx => hall x (by simp [hx]))

theorem natOfDigits_digits (ds : List Nat) (hne : ds ≠ []) (hall : ∀ d ∈ ds, isDigit d = true) :
    natOfDigits ds = some (digitsVal ds) := by
  cases ds with
  | nil => exact absurd rfl hne
  | cons d rest =>
    have hd : isDigit d = true := hall d (by simp)
    simp only [natOfDigits, hd, if_true]
    rw [digitsTail_all rest (d - 48) (fun x hx => hall x (by simp [hx]))]
    simp [digitsVal]

theorem dropWhile_append_of_all (p : Nat → Bool) (w rest : List Nat)
    (hw : ∀ c ∈ w, p c = true) :
    List.dropWhile p (w ++ rest) = List.dropWhile p rest := by
  induction w with
  | nil => rfl
  | cons c w ih =>
    simp only [List.cons_append, List.dropWhile_cons, hw c (by simp)]
    exact ih (fun x hx => hw x (by simp [hx]))

theorem dropWhile_of_head_neg (p : Nat → Bool) (c : Nat) (l : List Nat) (h : p c = false) :
    List.dropWhile p (c :: l) = c :: l := by
  simp [List.dropWhile_cons, h]

theorem isDigit_not_ws (d : Nat) (h : isDigit d = true) : pyWs d = false := by
  have := isDigit_range d h
  simp only [pyWs, Bool.or_eq_false_iff, beq_eq_false_iff_ne, ne_eq]
  omega

/-- Stripping whitespace from a whitespace-padded core whose elements are
all non-whitespace returns the core. -/
theorem pyStrip_sandwich (w1 w2 core : List Nat)
    (hw1 : ∀ c ∈ w1, pyWs c = true) (hw2 : ∀ c ∈ w2, pyWs c = true)
    (hne : core ≠ []) (hall : ∀ c ∈ core, pyWs c = false) :
    pyStrip (w1 ++ core ++ w2) = core := by
  obtain ⟨c0, rest, rfl⟩ : ∃ c0 rest, core = c0 :: rest := by
    cases core with
    | nil => exact absurd rfl hne
    | cons c0 rest => exact ⟨c0, rest, rfl⟩
  unfold pyStrip
  rw [List.append_assoc]
  rw [dropWhile_append_of_all pyWs w1 _ hw1]
  rw [show (c0 :: rest) ++ w2 = c0 :: (rest ++ w2) from rfl]
  rw [dropWhile_of_head_neg pyWs c0 _ (hall c0 (by simp))]
  rw [show (c0 :: (rest ++ w2)).reverse = w2.reverse ++ (c0 :: rest).reverse from by
    simp [List.reverse_cons, List.reverse_append, List.append_assoc]]
  rw [dropWhile_append_of_all pyWs w2.reverse _
    (fun c hc => hw2 c (List.mem_reverse.mp hc))]
  obtain ⟨cl, restl, hrev⟩ : ∃ cl restl, (c0 :: rest).reverse = cl :: restl := by
    cases h : (c0 :: rest).reverse with
    | nil => exact absurd h (by simp)
    | cons cl restl => exact ⟨cl, restl, rfl⟩
  rw [hrev, dropWhile_of_head_neg pyWs cl _
    (hall cl (by
      have : cl ∈ (c0 :: rest).reverse := by rw [hrev]; simp
      exact List.mem_reverse.mp this))]
  rw [← hrev, List.reverse_reverse]

theorem pyInt_digit_head (t : List Nat) (d : Nat) (rest : List Nat)
    (hstrip : pyStrip t = d :: rest) (hd : isDigit d = true) :
    pyInt t = (natOfDigits (d :: rest)).map (fun n => (n : Int)) := by
  have hr := isDigit_range d hd
  unfold pyInt
  rw [hstrip]
  split <;> simp_all

/-! ## Claims -/

/-- C1: for every sequence of valid field inputs to any of the three
scripts (auth.py's login branch, board.py, reg.py), reversing the base64
transform on the produced token and parsing the textual serialization
yields back exactly the original field mapping, value-for-value and in
the original key order. -/
theorem C1_roundtrip :
    (∀ login pass_ : PyStr, ValidStr login → ValidStr pass_ →
       decodeRecord (authToken [] login pass_) = some (authRecord login pass_)) ∧
    (∀ (inp : PyStr) (n : Int), pyInt inp = some n →
       decodeRecord (boardToken inp) = some (boardRecord n)) ∧
    (∀ login pass_ cc_key : PyStr, ValidStr login → ValidStr pass_ → ValidStr cc_key →
       decodeRecord (regToken login pass_ cc_key) = some (regRecord login pass_ cc_key)) := by
  refine ⟨?_, ?_, ?_⟩
  · intro l p hl hp
    show decodeRecord ((pyBytesUtf8 (jsonDumps (authRecord l p))).map b64encode) =
      some (authRecord l p)
    exact (token_decode _ (validRec_authRecord l p hl hp) (by simp [authRecord])).2
  · intro inp n h
    rw [boardToken_eq inp n h]
    exact (token_decode _ (validRec_boardRecord n) (by simp [boardRecord])).2
  · intro l p k hl hp hk
    exact (token_decode _ (validRec_regRecord l p k hl hp hk) (by simp [regRecord])).2

theorem C1_roundtrip_witness :
    decodeRecord (authToken [] (strLit "alice") (strLit "verysecret")) =
      some (authRecord (strLit "alice") (strLit "verysecret")) ∧
    decodeRecord (boardToken (strLit "42")) = some (boardRecord 42) ∧
    decodeRecord (regToken (strLit "bob") (strLit "password123") (strLit "XYZ-1")) =
      some (regRecord (strLit "bob") (strLit "password123") (strLit "XYZ-1")) :=
  ⟨C1_roundtrip.1 _ _ (by decide) (by decide),
   C1_roundtrip.2.1 (strLit "42") 42 (by decide),
   C1_roundtrip.2.2 _ _ _ (by decide) (by decide) (by decide)⟩

/-- C2: every token is produced by exactly the spec's pipeline: canonical
JSON text with quoted strings and unquoted integers in the fixed field
order, UTF-8 bytes, standard base64 with `=` padding — bit-exactly. -/
theorem C2_pipeline :
    (∀ l p : PyStr, authToken [] l p = specPipeline (specTextAuthLogin l p)) ∧
    (∀ (inp : PyStr) (n : Int), pyInt inp = some n →
       boardToken inp = specPipeline (specTextBoard n)) ∧
    (∀ l p k : PyStr, regToken l p k = specPipeline (specTextReg l p k)) := by
  refine ⟨?_, ?_, ?_⟩
  · intro l p
    show (pyBytesUtf8 (jsonDumps (authRecord l p))).map b64encode =
      specPipeline (specTextAuthLogin l p)
    rw [jsonDumps_authRecord]
    rfl
  · intro inp n h
    rw [boardToken_eq inp n h, jsonDumps_boardRecord]
    rfl
  · intro l p k
    show (pyBytesUtf8 (jsonDumps (regRecord l p k))).map b64encode =
      specPipeline (specTextReg l p k)
    rw [jsonDumps_regRecord]
    rfl

theorem C2_pipeline_witness :
    authToken [] (strLit "alice") (strLit "verysecret") =
      specPipeline (specTextAuthLogin (strLit "alice") (strLit "verysecret")) ∧
    boardToken (strLit "42") = specPipeline (specTextBoard 42) ∧
    regToken (strLit "bob") (strLit "password123") (strLit "XYZ-1") =
      specPipeline (specTextReg (strLit "bob") (strLit "password123") (strLit "XYZ-1")) :=
  ⟨C2_pipeline.1 _ _, C2_pipeline.2.1 (strLit "42") 42 (by decide), C2_pipeline.2.2 _ _ _⟩

/-- C3 (code bug): `print(token)` on the Python-3 bytes object writes its
repr, so the line carries a wrapper of `b` (code 98) and quotes (code
39): at board input "42" the line is the token surrounded by that
wrapper, not the bare token the spec promises. -/
theorem C3_printed_line_is_bytes_repr :
    boardToken (strLit "42") = some (strLit "eyJib2FyZF9pZCI6IDQyfQ==") ∧
    printedLine (boardToken (strLit "42")) =
      some (98 :: 39 :: strLit "eyJib2FyZF9pZCI6IDQyfQ==" ++ [39]) ∧
    printedLine (boardToken (strLit "42")) ≠ some (strLit "eyJib2FyZF9pZCI6IDQyfQ==") :=
  ⟨by decide, by decide, by decide⟩

/-- C4: in the passthrough variant (auth.py, nonempty first input) the
token is the base64 of the raw input's UTF-8 bytes, and reversing the
transform returns exactly those bytes. -/
theorem C4_passthrough (s l p : PyStr) (hne : s ≠ []) (hv : ValidStr s) :
    authToken s l p = some (b64encode ((s.map utf8Char).flatten)) ∧
    pyBytesUtf8 s = some ((s.map utf8Char).flatten) ∧
    b64decode (b64encode ((s.map utf8Char).flatten)) = some ((s.map utf8Char).flatten) := by
  have hb := pyBytesUtf8_valid s hv
  refine ⟨?_, hb, ?_⟩
  · unfold authToken
    rw [if_pos hne, hb]
    rfl
  · exact b64decode_b64encode _ (pyBytesUtf8_bytes s _ hb)

theorem C4_passthrough_witness :
    authToken (strLit "secret-token") [] [] =
      some (b64encode (((strLit "secret-token").map utf8Char).flatten)) ∧
    pyBytesUtf8 (strLit "secret-token") =
      some (((strLit "secret-token").map utf8Char).flatten) ∧
    b64decode (b64encode (((strLit "secret-token").map utf8Char).flatten)) =
      some (((strLit "secret-token").map utf8Char).flatten) :=
  C4_passthrough (strLit "secret-token") [] [] (by decide) (by decide)

/-- C5: board input "42" builds the record with the integer 42 — a typed
`JVal.int`, not the string "42" — and decoding the token reproduces it. -/
theorem C5_board42_typed :
    pyInt (strLit "42") = some 42 ∧
    decodeRecord (boardToken (strLit "42")) = some [(strLit "board_id", JVal.int 42)] ∧
    JVal.int 42 ≠ JVal.str (strLit "42") :=
  ⟨by decide, by decide, by decide⟩

/-- C6: a board input on which int() fails terminates the run before any
token exists: the script result is the uncaught exception (modelled
`none`) and nothing is printed. -/
theorem C6_nonnumeric_fatal (inp : PyStr) (h : pyInt inp = none) :
    boardToken inp = none ∧ printedLine (boardToken inp) = none := by
  unfold boardToken
  rw [h]
  exact ⟨rfl, rfl⟩

theorem C6_nonnumeric_fatal_witness :
    pyInt (strLit "abc") = none ∧ boardToken (strLit "abc") = none ∧
      printedLine (boardToken (strLit "abc")) = none :=
  ⟨by decide, (C6_nonnumeric_fatal (strLit "abc") (by decide)).1,
    (C6_nonnumeric_fatal (strLit "abc") (by decide)).2⟩

/-- C7: reg.py with login "bob", password "password123", key "XYZ-1": the
decoded record has exactly three fields, in the order login, pass,
cc_key, with exactly those values. -/
theorem C7_reg_fields :
    decodeRecord (regToken (strLit "bob") (strLit "password123") (strLit "XYZ-1")) =
      some [(strLit "login", JVal.str (strLit "bob")),
            (strLit "pass", JVal.str (strLit "password123")),
            (strLit "cc_key", JVal.str (strLit "XYZ-1"))] :=
  (token_decode (regRecord (strLit "bob") (strLit "password123") (strLit "XYZ-1"))
    (validRec_regRecord _ _ _ (by decide) (by decide) (by decide))
    (by simp [regRecord])).2

/-- C8: auth.py's login branch with "alice" and "verysecret": the decoded
token is exactly {login: "alice", pass: "verysecret"}, no extra fields. -/
theorem C8_auth_login_decode :
    decodeRecord (authToken [] (strLit "alice") (strLit "verysecret")) =
      some [(strLit "login", JVal.str (strLit "alice")),
            (strLit "pass", JVal.str (strLit "verysecret"))] :=
  (token_decode (authRecord (strLit "alice") (strLit "verysecret"))
    (validRec_authRecord _ _ (by decide) (by decide))
    (by simp [authRecord])).2

/-- C9: the passthrough branch runs exactly when the first input is
nonempty; the empty first input builds the structured login record, so
no passthrough token (base64 of the empty string, which is empty) is
ever produced for the empty raw string. -/
theorem C9_branch_selection (inp l p : PyStr) :
    (inp ≠ [] → authToken inp l p = (pyBytesUtf8 inp).map b64encode) ∧
    (inp = [] → authToken inp l p =
      (pyBytesUtf8 (jsonDumps (authRecord l p))).map b64encode) ∧
    (inp = [] → authToken inp l p ≠ some (b64encode [])) := by
  refine ⟨?_, ?_, ?_⟩
  · intro h
    unfold authToken
    rw [if_pos h]
  · intro h
    subst h
    rfl
  · intro h
    subst h
    have h1 : pyBytesUtf8 (jsonDumps (authRecord l p)) = some (jsonDumps (authRecord l p)) :=
      pyBytesUtf8_ascii _ (jsonDumps_le _)
    show (pyBytesUtf8 (jsonDumps (authRecord l p))).map b64encode ≠ some (b64encode [])
    rw [h1]
    intro heq
    simp only [Option.map, Option.some.injEq] at heq
    have heq2 : b64encode (123 :: (dumpEntries (authRecord l p) ++ [125])) = [] := heq
    exact b64encode_ne_nil 123 (dumpEntries (authRecord l p) ++ [125]) heq2

theorem C9_branch_selection_witness :
    authToken (strLit "ey") [] [] = (pyBytesUtf8 (strLit "ey")).map b64encode ∧
    authToken [] (strLit "a") (strLit "b") =
      (pyBytesUtf8 (jsonDumps (authRecord (strLit "a") (strLit "b")))).map b64encode ∧
    authToken [] (strLit "a") (strLit "b") ≠ some (b64encode []) :=
  ⟨(C9_branch_selection (strLit "ey") [] []).1 (by decide),
   (C9_branch_selection [] (strLit "a") (strLit "b")).2.1 rfl,
   (C9_branch_selection [] (strLit "a") (strLit "b")).2.2 rfl⟩

/-- C10: every decimal integer literal with an optional leading sign and
optional surrounding whitespace is accepted by board.py's int() parse:
unsigned, `+`-signed and `-`-signed forms all parse to the expected
value, and the script builds the corresponding record. -/
theorem C10_signed_padded_literals (w1 w2 ds : List Nat)
    (hw1 : ∀ c ∈ w1, pyWs c = true) (hw2 : ∀ c ∈ w2, pyWs c = true)
    (hne : ds ≠ []) (hds : ∀ d ∈ ds, isDigit d = true) :
    pyInt (w1 ++ ds ++ w2) = some (digitsVal ds) ∧
    pyInt (w1 ++ (43 :: ds) ++ w2) = some (digitsVal ds) ∧
    pyInt (w1 ++ (45 :: ds) ++ w2) = some (-(digitsVal ds : Int)) ∧
    decodeRecord (boardToken (w1 ++ (45 :: ds) ++ w2)) =
      some (boardRecord (-(digitsVal ds : Int))) := by
  have hnws : ∀ c ∈ ds, pyWs c = false := fun c hc => isDigit_not_ws c (hds c hc)
  obtain ⟨d0, rest, rfl⟩ : ∃ d0 rest, ds = d0 :: rest := by
    cases ds with
    | nil => exact absurd rfl hne
    | cons d0 rest => exact ⟨d0, rest, rfl⟩
  have hnat := natOfDigits_digits (d0 :: rest) (by simp) hds
  have h1 : pyInt (w1 ++ (d0 :: rest) ++ w2) = some (digitsVal (d0 :: rest)) := by
    have hstrip := pyStrip_sandwich w1 w2 (d0 :: rest) hw1 hw2 (by simp) hnws
    rw [pyInt_digit_head _ d0 rest hstrip (hds d0 (by simp)), hnat]
    rfl
  have h2 : pyInt (w1 ++ (43 :: d0 :: rest) ++ w2) = some (digitsVal (d0 :: rest)) := by
    have hall : ∀ c ∈ 43 :: d0 :: rest, pyWs c = false := by
      intro c hc
      rcases List.mem_cons.mp hc with rfl | hc
      · decide
      · exact hnws c hc
    have hstrip := pyStrip_sandwich w1 w2 (43 :: d0 :: rest) hw1 hw2 (by simp) hall
    unfold pyInt
    rw [hstrip]
    show (natOfDigits (d0 :: rest)).map (fun n => (n : Int)) = some (digitsVal (d0 :: rest))
    rw [hnat]
    rfl
  have h3 : pyInt (w1 ++ (45 :: d0 :: rest) ++ w2) = some (-(digitsVal (d0 :: rest) : Int)) := by
    have hall : ∀ c ∈ 45 :: d0 :: rest, pyWs c = false := by
      intro c hc
      rcases List.mem_cons.mp hc with rfl | hc
      · decide
      · exact hnws c hc
    have hstrip := pyStrip_sandwich w1 w2 (45 :: d0 :: rest) hw1 hw2 (by simp) hall
    unfold pyInt
    rw [hstrip]
    show (natOfDigits (d0 :: rest)).map (fun n => -(n : Int)) = some (-(digitsVal (d0 :: rest) : Int))
    rw [hnat]
    rfl
  refine ⟨h1, h2, h3, ?_⟩
  rw [boardToken_eq _ _ h3]
  exact (token_decode _ (validRec_boardRecord _) (by simp [boardRecord])).2

theorem C10_signed_padded_literals_witness :
    pyInt (strLit " -7 ") = some (-7 : Int) ∧
    decodeRecord (boardToken (strLit " -7 ")) = some (boardRecord (-7 : Int)) :=
  ⟨(C10_signed_padded_literals [32] [32] [55] (by decide) (by decide) (by decide)
      (by decide)).2.2.1,
   (C10_signed_padded_literals [32] [32] [55] (by decide) (by decide) (by decide)
      (by decide)).2.2.2⟩

end TaskboardDebug
